import Mathlib

/-!
Verification development for the smart-locker admin dashboard.

The analytics page derives usage metrics from a snapshot of the
`reservations` collection, and the lockers page issues writes
(create locker, toggle lock state) against the `lockers` collection.
This file embeds those computations and proves the specified
properties about them.

Modelling conventions:
* A Firestore wire value that may be a Timestamp, an ISO-8601 string,
  null/undefined, or something else is modelled by `TsValue`.  A typed
  Timestamp carries the epoch-millisecond instant its `toDate()` yields;
  a string that `new Date(s)` parses successfully carries the instant it
  parses to, and a string that parses to NaN is `badString`.
* A JavaScript `Record<string, number>` built by repeated
  `m[k] = (m[k] || 0) + 1` is modelled as an association list in
  insertion order (`bump` appends new keys at the end and updates
  existing keys in place), matching `Object.entries` enumeration order
  for non-index string keys.
* `Array.prototype.sort` with a numeric comparator is a stable sort
  (ES2019); any stable sort for the same total preorder produces the
  same output, so it is modelled by `List.insertionSort` with the
  corresponding non-strict relation, which inserts each earlier element
  ahead of its ties.
* `Date.prototype.getHours` is local-time dependent; the development is
  parametric in the UTC offset `tz` (in milliseconds) of the local zone,
  and the hour is `((ms + tz) / 3600000) mod 24` with floor division and
  positive remainder, as in the ECMAScript HourFromTime definition.
* `toISOString().slice(0, 10)` keys a reservation by its UTC calendar
  day; distinct days map to distinct `YYYY-MM-DD` strings whose
  lexicographic order agrees with chronological order, so the day key is
  modelled by the UTC day index `ms / 86400000` (floor division).
-/

namespace SmartLocker

/-- Wire value of a timestamp-like field as the dashboard may receive it. -/
inductive TsValue where
  | missing : TsValue
  | timestamp (ms : Int) : TsValue
  | isoString (ms : Int) : TsValue
  | badString : TsValue
  | other : TsValue
deriving DecidableEq

/-- Embeds `parseDate` from the analytics page: null/undefined and other
falsy values give null, a Firestore Timestamp gives `toDate()`, a string
gives `new Date(value)` unless that is NaN, anything else gives null. -/
def parseDate : TsValue → Option Int
  | .missing => none
  | .timestamp ms => some ms
  | .isoString ms => some ms
  | .badString => none
  | .other => none

/-- A document of the `reservations` collection as the analytics page
types it: every field optional or of uncertain wire format. -/
structure Reservation where
  lockerId : Option String
  createdAt : TsValue
  startAt : TsValue
  endAt : TsValue
  status : Option String
deriving DecidableEq

/-- Total number of reservations: `reservations.length`. -/
def totalReservations (rs : List Reservation) : Nat := rs.length

/-- One duration sample of `avgDurationMin`: parse start and end, take
the difference in minutes, keep it only when strictly positive. -/
def durSample (r : Reservation) : Option ℚ :=
  match parseDate r.startAt, parseDate r.endAt with
  | some s, some e =>
      let diffMin : ℚ := ((e : ℚ) - (s : ℚ)) / 60000
      if 0 < diffMin then some diffMin else none
  | _, _ => none

/-- Embeds `avgDurationMin`: collect the positive duration samples; if
none qualify the metric is null, otherwise it is their sum (the
`reduce` with initial value 0) divided by their number. -/
def avgDurationMin (rs : List Reservation) : Option ℚ :=
  let durations := rs.filterMap durSample
  if durations.isEmpty then none
  else some (durations.foldl (· + ·) 0 / durations.length)

/-- Local hour of day (0 to 23) of an instant, for a zone whose UTC
offset is `tz` milliseconds: this is `Date.prototype.getHours`, the
ECMAScript HourFromTime applied to LocalTime. -/
def getHoursLocal (tz ms : Int) : Nat :=
  (((ms + tz).fdiv 3600000) % 24).toNat

/-- One step of the `peakHour` histogram loop: a reservation with an
unparseable start is skipped, otherwise the bucket of the local hour of
its start is incremented. -/
def hourStep (tz : Int) (hc : List Nat) (r : Reservation) : List Nat :=
  match parseDate r.startAt with
  | some ms => hc.set (getHoursLocal tz ms) (hc.getD (getHoursLocal tz ms) 0 + 1)
  | none => hc

/-- The 24-bucket start-hour histogram `hourCounts` of `peakHour`. -/
def hourHist (tz : Int) (rs : List Reservation) : List Nat :=
  rs.foldl (hourStep tz) (List.replicate 24 0)

/-- Embeds `peakHour`: `Math.max(...hourCounts)` over the 24 buckets is
null when zero, else `hourCounts.indexOf(max)` (first index holding the
maximum). -/
def peakHour (tz : Int) (rs : List Reservation) : Option Nat :=
  let hc := hourHist tz rs
  let mx := hc.foldl Nat.max 0
  if mx = 0 then none else some (hc.findIdx (fun c => c == mx))

/-- Embeds `counts[k] = (counts[k] || 0) + 1` on a JavaScript object in
enumeration order: an existing key is updated in place, a new key is
appended at the end. -/
def bump {α : Type} [DecidableEq α] (k : α) : List (α × Nat) → List (α × Nat)
  | [] => [(k, 1)]
  | (k', v) :: rest =>
      if k' = k then (k', v + 1) :: rest else (k', v) :: bump k rest

/-- One iteration of the `forEach` counting loop shared by the grouping
metrics: a reservation with a present key bumps that key, the rest are
skipped. -/
def countStep {α : Type} [DecidableEq α] (key : Reservation → Option α)
    (m : List (α × Nat)) (r : Reservation) : List (α × Nat) :=
  match key r with
  | some k => bump k m
  | none => m

/-- The `forEach` counting loop shared by the grouping metrics. -/
def countBy {α : Type} [DecidableEq α]
    (key : Reservation → Option α) (rs : List Reservation) : List (α × Nat) :=
  rs.foldl (countStep key) []

/-- Grouping key of `topLockers`: `if (!r.lockerId) return;` skips a
missing locker id and also the falsy empty string. -/
def lockerKey (r : Reservation) : Option String :=
  match r.lockerId with
  | none => none
  | some s => if s = "" then none else some s

/-- The `counts` object of `topLockers`. -/
def lockerCounts (rs : List Reservation) : List (String × Nat) :=
  countBy lockerKey rs

/-- Comparator `(a, b) => b.count - a.count` as the total preorder of
the stable sort: `a` precedes `b` when `b.2 ≤ a.2` (descending count). -/
def cmpCountDesc {α : Type} (a b : α × Nat) : Prop := b.2 ≤ a.2

instance {α : Type} : @DecidableRel (α × Nat) cmpCountDesc :=
  fun a b => Nat.decLe b.2 a.2

instance {α : Type} : IsTotal (α × Nat) cmpCountDesc :=
  ⟨fun a b => Nat.le_total b.2 a.2⟩

instance {α : Type} : IsTrans (α × Nat) cmpCountDesc :=
  ⟨fun _ _ _ hab hbc => Nat.le_trans hbc hab⟩

/-- Embeds `topLockers`: entries of the counts object, sorted stably by
descending count, truncated to the first five. -/
def topLockers (rs : List Reservation) : List (String × Nat) :=
  (List.insertionSort cmpCountDesc (lockerCounts rs)).take 5

/-- UTC day index of an instant, standing for the `YYYY-MM-DD` key
`toISOString().slice(0, 10)` of `reservationsPerDay`. -/
def msToDay (ms : Int) : Int := ms.fdiv 86400000

/-- Grouping key of `reservationsPerDay`: the UTC calendar day of a
parseable creation time. -/
def createdDay (r : Reservation) : Option Int :=
  (parseDate r.createdAt).map msToDay

/-- The `map` object of `reservationsPerDay`. -/
def dayCounts (rs : List Reservation) : List (Int × Nat) :=
  countBy createdDay rs

/-- Comparator `([a], [b]) => a.localeCompare(b)` on `YYYY-MM-DD` keys:
ascending day order. -/
def cmpDayAsc (a b : Int × Nat) : Prop := a.1 ≤ b.1

instance : DecidableRel cmpDayAsc := fun a b => Int.decLe a.1 b.1

instance : IsTotal (Int × Nat) cmpDayAsc := ⟨fun a b => Int.le_total a.1 b.1⟩

instance : IsTrans (Int × Nat) cmpDayAsc :=
  ⟨fun _ _ _ hab hbc => Int.le_trans hab hbc⟩

/-- Embeds `reservationsPerDay`: day buckets of the creation times,
sorted ascending by day. -/
def reservationsPerDay (rs : List Reservation) : List (Int × Nat) :=
  List.insertionSort cmpDayAsc (dayCounts rs)

/-- Grouping key of `statusBreakdown`: `r.status ?? "unknown"`, so only
a missing status normalizes to "unknown". -/
def statusKey (r : Reservation) : String := r.status.getD "unknown"

/-- The `map` object of `statusBreakdown`; every reservation has a key. -/
def statusCounts (rs : List Reservation) : List (String × Nat) :=
  countBy (fun r => some (statusKey r)) rs

/-- Embeds `statusBreakdown`: status buckets sorted stably by
descending count. -/
def statusBreakdown (rs : List Reservation) : List (String × Nat) :=
  List.insertionSort cmpCountDesc (statusCounts rs)

/-! Write path of the lockers page. -/

/-- JavaScript `String.prototype.trim`: strip whitespace from both
ends.  (Defined over the character list so that it evaluates in the
kernel.) -/
def jsTrim (s : String) : String :=
  ⟨((s.data.dropWhile Char.isWhitespace).reverse.dropWhile
      Char.isWhitespace).reverse⟩

/-- The `form` state of the add-locker modal; `pricePerHour` is kept as
a number by the input handler, so `Number(form.pricePerHour)` in
`addLocker` is the identity on it. -/
structure LockerForm where
  id : String
  label : String
  location : String
  doorStatus : String
  pricePerHour : ℚ
  size : String
deriving DecidableEq

/-- The only value the dashboard ever writes into `lastUpdated`:
the `serverTimestamp()` sentinel, resolved server-side. -/
inductive TimeValue where
  | server : TimeValue
deriving DecidableEq

/-- The document written by `addLocker` via `setDoc`. -/
structure LockerDoc where
  id : String
  label : String
  location : String
  status : String
  lockState : Nat
  reservationUntil : Option TsValue
  lastUpdated : TimeValue
  pricePerHour : ℚ
  size : String
deriving DecidableEq

/-- Embeds `addLocker`: an id that is empty after trimming alerts and
writes nothing; otherwise the full document is written, with the falsy
empty string defaulting label to the trimmed id and location to
"Unknown". -/
def addLocker (form : LockerForm) : Option LockerDoc :=
  if jsTrim form.id = "" then none
  else some {
    id := jsTrim form.id
    label := if form.label = "" then jsTrim form.id else form.label
    location := if form.location = "" then "Unknown" else form.location
    status := form.doorStatus
    lockState := 0
    reservationUntil := none
    lastUpdated := TimeValue.server
    pricePerHour := form.pricePerHour
    size := form.size }

/-- A locker row as cached in memory by the subscription mapping; the
wire type of `lockState` is `0 | 1` and the field may be absent. -/
structure Locker where
  id : String
  label : Option String
  location : Option String
  doorStatus : Option String
  lockState : Option Nat
  reservationUntil : Option TsValue
  pricePerHour : Option ℚ
  size : Option String
deriving DecidableEq

/-- The fields written by `updateDoc` in `toggleLockState`. -/
structure LockerUpdate where
  lockState : Nat
  lastUpdated : TimeValue
deriving DecidableEq

/-- Embeds `toggleLockState`: the last-known in-memory lock state
(defaulted to 0 when absent) is flipped and written back together with
a refreshed server timestamp. -/
def toggleLockState (l : Locker) : LockerUpdate :=
  let current : Nat := l.lockState.getD 0
  let next : Nat := if current = 0 then 1 else 0
  { lockState := next, lastUpdated := TimeValue.server }

/-! Specification-side vocabulary used to state the claims. -/

/-- Count stored under key `k` in an association list, 0 when absent. -/
def lookupD {α : Type} [DecidableEq α] (k : α) : List (α × Nat) → Nat
  | [] => 0
  | (k', v) :: rest => if k' = k then v else lookupD k rest

/-- Number of reservations of the snapshot carrying the key `k`. -/
def occCount {α : Type} [DecidableEq α] (key : Reservation → Option α)
    (rs : List Reservation) (k : α) : Nat :=
  (rs.filter (fun r => decide (key r = some k))).length

/-- One step of first-encounter key collection. -/
def encStep {α : Type} [DecidableEq α] (key : Reservation → Option α)
    (ks : List α) (r : Reservation) : List α :=
  match key r with
  | some k => if k ∈ ks then ks else ks ++ [k]
  | none => ks

/-- The distinct keys of a snapshot, in order of first encounter. -/
def encounterKeys {α : Type} [DecidableEq α] (key : Reservation → Option α)
    (rs : List Reservation) : List α :=
  rs.foldl (encStep key) []

/-- Sum of the counts of an association list. -/
def sumCounts {α : Type} (m : List (α × Nat)) : Nat :=
  (m.map Prod.snd).sum

/-! Lemmas about `bump`. -/

theorem lookupD_bump_self {α : Type} [DecidableEq α] (k : α)
    (m : List (α × Nat)) : lookupD k (bump k m) = lookupD k m + 1 := by
  induction m with
  | nil => simp [bump, lookupD]
  | cons p rest ih =>
      obtain ⟨k', v⟩ := p
      by_cases hk : k' = k
      · simp [bump, lookupD, hk]
      · simp [bump, lookupD, hk, ih]

theorem lookupD_bump_ne {α : Type} [DecidableEq α] {k k' : α}
    (h : k' ≠ k) (m : List (α × Nat)) :
    lookupD k' (bump k m) = lookupD k' m := by
  have h' : ¬k = k' := fun hh => h hh.symm
  induction m with
  | nil => simp [bump, lookupD, h']
  | cons p rest ih =>
      obtain ⟨k'', v⟩ := p
      by_cases hk : k'' = k
      · subst hk
        simp [bump, lookupD, h']
      · simp [bump, lookupD, hk, ih]

theorem map_fst_bump {α : Type} [DecidableEq α] (k : α)
    (m : List (α × Nat)) :
    (bump k m).map Prod.fst =
      if k ∈ m.map Prod.fst then m.map Prod.fst
      else m.map Prod.fst ++ [k] := by
  induction m with
  | nil => simp [bump]
  | cons p rest ih =>
      obtain ⟨k', v⟩ := p
      by_cases hk : k' = k
      · simp [bump, hk]
      · have hk' : ¬k = k' := fun hh => hk hh.symm
        by_cases hm : k ∈ rest.map Prod.fst
        · simp [bump, hk, ih, hm, hk']
        · simp [bump, hk, ih, hm, hk']

theorem sumCounts_bump {α : Type} [DecidableEq α] (k : α)
    (m : List (α × Nat)) : sumCounts (bump k m) = sumCounts m + 1 := by
  induction m with
  | nil => simp [bump, sumCounts]
  | cons p rest ih =>
      obtain ⟨k', v⟩ := p
      by_cases hk : k' = k
      · simp [bump, sumCounts, hk]
        omega
      · simp [bump, sumCounts, hk] at *
        omega

/-! Lemmas about the counting fold. -/

theorem lookupD_foldl_countStep {α : Type} [DecidableEq α]
    (key : Reservation → Option α) (rs : List Reservation) :
    ∀ (m : List (α × Nat)) (k : α),
      lookupD k (rs.foldl (countStep key) m) = lookupD k m + occCount key rs k := by
  induction rs with
  | nil => intro m k; simp [occCount]
  | cons r rs ih =>
      intro m k
      have hfilter :
          occCount key (r :: rs) k =
            (if key r = some k then 1 else 0) + occCount key rs k := by
        by_cases h : key r = some k
        · simp [occCount, h]
          omega
        · simp [occCount, h]
      rw [List.foldl_cons, ih, hfilter]
      cases hk : key r with
      | none => simp [countStep, hk]
      | some k' =>
          by_cases hkk : k' = k
          · subst hkk
            simp only [countStep, hk]
            rw [lookupD_bump_self]
            simp
            omega
          · simp only [countStep, hk]
            rw [lookupD_bump_ne (fun hh => hkk hh.symm)]
            have : ¬key r = some k := by
              rw [hk]
              simp [hkk]
            simp [hk] at this
            simp [this]

theorem lookupD_countBy {α : Type} [DecidableEq α]
    (key : Reservation → Option α) (rs : List Reservation) (k : α) :
    lookupD k (countBy key rs) = occCount key rs k := by
  have := lookupD_foldl_countStep key rs [] k
  simpa [countBy, lookupD] using this

theorem map_fst_foldl_countStep {α : Type} [DecidableEq α]
    (key : Reservation → Option α) (rs : List Reservation) :
    ∀ (m : List (α × Nat)),
      (rs.foldl (countStep key) m).map Prod.fst =
        rs.foldl (encStep key) (m.map Prod.fst) := by
  induction rs with
  | nil => intro m; rfl
  | cons r rs ih =>
      intro m
      rw [List.foldl_cons, List.foldl_cons, ih]
      congr 1
      cases hk : key r with
      | none => simp [countStep, encStep, hk]
      | some k => simp [countStep, encStep, hk, map_fst_bump]

theorem map_fst_countBy {α : Type} [DecidableEq α]
    (key : Reservation → Option α) (rs : List Reservation) :
    (countBy key rs).map Prod.fst = encounterKeys key rs :=
  map_fst_foldl_countStep key rs []

theorem nodup_map_fst_foldl_countStep {α : Type} [DecidableEq α]
    (key : Reservation → Option α) (rs : List Reservation) :
    ∀ (m : List (α × Nat)), (m.map Prod.fst).Nodup →
      ((rs.foldl (countStep key) m).map Prod.fst).Nodup := by
  induction rs with
  | nil => intro m hm; simpa using hm
  | cons r rs ih =>
      intro m hm
      rw [List.foldl_cons]
      apply ih
      cases hk : key r with
      | none => simpa [countStep, hk] using hm
      | some k =>
          simp only [countStep, hk, map_fst_bump]
          by_cases hmem : k ∈ m.map Prod.fst
          · simpa [hmem] using hm
          · simp only [hmem, if_false]
            exact List.Nodup.append hm (List.nodup_singleton k)
              (by simpa using hmem)

theorem nodup_map_fst_countBy {α : Type} [DecidableEq α]
    (key : Reservation → Option α) (rs : List Reservation) :
    ((countBy key rs).map Prod.fst).Nodup :=
  nodup_map_fst_foldl_countStep key rs [] (by simp)

theorem sumCounts_foldl_countStep {α : Type} [DecidableEq α]
    (key : Reservation → Option α) (rs : List Reservation) :
    ∀ (m : List (α × Nat)),
      sumCounts (rs.foldl (countStep key) m) =
        sumCounts m + (rs.countP (fun r => (key r).isSome)) := by
  induction rs with
  | nil => intro m; simp
  | cons r rs ih =>
      intro m
      rw [List.foldl_cons, ih]
      cases hk : key r with
      | none => simp [countStep, hk, List.countP_cons]
      | some k =>
          simp [countStep, hk, List.countP_cons, sumCounts_bump]
          omega

theorem mem_encounterKeys_aux {α : Type} [DecidableEq α]
    (key : Reservation → Option α) (rs : List Reservation) :
    ∀ (ks : List α) (k : α),
      (k ∈ rs.foldl (encStep key) ks ↔ k ∈ ks ∨ ∃ r ∈ rs, key r = some k) := by
  induction rs with
  | nil => intro ks k; simp
  | cons r rs ih =>
      intro ks k
      rw [List.foldl_cons, ih]
      cases hk : key r with
      | none =>
          constructor
          · rintro (h | ⟨r', hr', hkr'⟩)
            · exact Or.inl (by simpa [encStep, hk] using h)
            · exact Or.inr ⟨r', List.mem_cons_of_mem r hr', hkr'⟩
          · rintro (h | ⟨r', hr', hkr'⟩)
            · exact Or.inl (by simpa [encStep, hk] using h)
            · rcases List.mem_cons.mp hr' with h' | h'
              · subst h'; rw [hk] at hkr'; cases hkr'
              · exact Or.inr ⟨r', h', hkr'⟩
      | some k' =>
          have hstep : k ∈ encStep key ks r ↔ k ∈ ks ∨ k = k' := by
            by_cases hmem : k' ∈ ks
            · simp only [encStep, hk, hmem, if_true]
              constructor
              · exact fun h => Or.inl h
              · rintro (h | rfl)
                · exact h
                · exact hmem
            · simp [encStep, hk, hmem]
          rw [hstep]
          constructor
          · rintro ((h | rfl) | ⟨r', hr', hkr'⟩)
            · exact Or.inl h
            · exact Or.inr ⟨r, List.mem_cons_self r rs, hk⟩
            · exact Or.inr ⟨r', List.mem_cons_of_mem r hr', hkr'⟩
          · rintro (h | ⟨r', hr', hkr'⟩)
            · exact Or.inl (Or.inl h)
            · rcases List.mem_cons.mp hr' with h' | h'
              · subst h'
                rw [hk] at hkr'
                cases hkr'
                exact Or.inl (Or.inr rfl)
              · exact Or.inr ⟨r', h', hkr'⟩

theorem mem_encounterKeys {α : Type} [DecidableEq α]
    (key : Reservation → Option α) (rs : List Reservation) (k : α) :
    k ∈ encounterKeys key rs ↔ ∃ r ∈ rs, key r = some k := by
  have := mem_encounterKeys_aux key rs [] k
  simpa [encounterKeys] using this

/-! Stability of the descending-count sort: the entries holding any
fixed count keep their relative order. -/

theorem filter_orderedInsert_count {α : Type} (c : Nat) (a : α × Nat)
    (m : List (α × Nat)) :
    (List.orderedInsert cmpCountDesc a m).filter (fun e => e.2 == c) =
      if a.2 = c then a :: m.filter (fun e => e.2 == c)
      else m.filter (fun e => e.2 == c) := by
  induction m with
  | nil =>
      by_cases h : a.2 = c <;> simp [List.orderedInsert, h]
  | cons b m ih =>
      simp only [List.orderedInsert]
      by_cases hle : cmpCountDesc a b
      · rw [if_pos hle]
        by_cases h : a.2 = c <;> simp [List.filter_cons, h]
      · rw [if_neg hle]
        have hb : a.2 < b.2 := Nat.lt_of_not_le hle
        by_cases h : a.2 = c
        · have hbc : ¬(b.2 = c) := by omega
          simp [List.filter_cons, hbc, ih, h]
        · simp [List.filter_cons, ih, h]

theorem filter_insertionSort_count {α : Type} (c : Nat)
    (l : List (α × Nat)) :
    (List.insertionSort cmpCountDesc l).filter (fun e => e.2 == c) =
      l.filter (fun e => e.2 == c) := by
  induction l with
  | nil => rfl
  | cons a l ih =>
      simp only [List.insertionSort]
      rw [filter_orderedInsert_count, ih]
      by_cases h : a.2 = c <;> simp [List.filter_cons, h]

/-! The start-hour histogram. -/

theorem getHoursLocal_lt (tz ms : Int) : getHoursLocal tz ms < 24 := by
  unfold getHoursLocal
  have h24 : (0 : Int) < 24 := by norm_num
  have hnn : 0 ≤ ((ms + tz).fdiv 3600000) % 24 :=
    Int.emod_nonneg _ (by norm_num)
  have hlt : ((ms + tz).fdiv 3600000) % 24 < 24 :=
    Int.emod_lt_of_pos _ h24
  omega

/-- Number of reservations whose start parses and falls in local hour
`h`; the specification-side reading of one histogram bucket. -/
def hourOcc (tz : Int) (rs : List Reservation) (h : Nat) : Nat :=
  (rs.filter
    (fun r => decide ((parseDate r.startAt).map (getHoursLocal tz) = some h))).length

theorem length_foldl_hourStep (tz : Int) (rs : List Reservation) :
    ∀ l : List Nat, (rs.foldl (hourStep tz) l).length = l.length := by
  induction rs with
  | nil => intro l; rfl
  | cons r rs ih =>
      intro l
      rw [List.foldl_cons, ih]
      cases hk : parseDate r.startAt <;> simp [hourStep, hk]

theorem getD_foldl_hourStep (tz : Int) (rs : List Reservation) :
    ∀ l : List Nat, l.length = 24 → ∀ h : Nat, h < 24 →
      (rs.foldl (hourStep tz) l).getD h 0 = l.getD h 0 + hourOcc tz rs h := by
  induction rs with
  | nil => intro l _ h _; simp [hourOcc]
  | cons r rs ih =>
      intro l hlen h hh
      have hstep : (hourStep tz l r).length = 24 := by
        cases hk : parseDate r.startAt <;> simp [hourStep, hk, hlen]
      rw [List.foldl_cons, ih (hourStep tz l r) hstep h hh]
      have hocc :
          hourOcc tz (r :: rs) h =
            (if (parseDate r.startAt).map (getHoursLocal tz) = some h
              then 1 else 0) + hourOcc tz rs h := by
        unfold hourOcc
        rw [List.filter_cons]
        by_cases hr : (parseDate r.startAt).map (getHoursLocal tz) = some h
        · rw [if_pos (by simpa using hr), if_pos hr]
          rw [List.length_cons]
          omega
        · rw [if_neg (by simpa using hr), if_neg hr]
          omega
      rw [hocc]
      cases hk : parseDate r.startAt with
      | none => simp [hourStep, hk]
      | some ms =>
          have hb : getHoursLocal tz ms < 24 := getHoursLocal_lt tz ms
          by_cases heq : getHoursLocal tz ms = h
          · subst heq
            simp only [hourStep, hk, List.getD_eq_getElem?_getD,
              List.getElem?_set, if_pos rfl, hlen, hb, if_true]
            simp [hk]
            omega
          · simp only [hourStep, hk, List.getD_eq_getElem?_getD,
              List.getElem?_set, heq, if_false]
            simp [hk, heq]

theorem hourHist_getD (tz : Int) (rs : List Reservation) (h : Nat)
    (hh : h < 24) : (hourHist tz rs).getD h 0 = hourOcc tz rs h := by
  have hmain := getD_foldl_hourStep tz rs (List.replicate 24 0) (by simp) h hh
  have h0 : (List.replicate 24 (0 : Nat)).getD h 0 = 0 := by
    rw [List.getD_eq_getElem?_getD, List.getElem?_replicate]
    by_cases hlt : h < 24 <;> simp [hlt]
  unfold hourHist
  rw [hmain, h0]
  omega

theorem hourHist_length (tz : Int) (rs : List Reservation) :
    (hourHist tz rs).length = 24 := by
  simpa [hourHist] using length_foldl_hourStep tz rs (List.replicate 24 0)

/-! The fold computing `Math.max(...hourCounts)`. -/

theorem foldl_max_le_iff (l : List Nat) :
    ∀ a n : Nat, (l.foldl Nat.max a ≤ n ↔ a ≤ n ∧ ∀ x ∈ l, x ≤ n) := by
  induction l with
  | nil => intro a n; simp
  | cons b l ih =>
      intro a n
      rw [List.foldl_cons, ih]
      simp only [Nat.max_le, List.mem_cons]
      constructor
      · rintro ⟨⟨ha, hb⟩, hl⟩
        exact ⟨ha, fun x hx => by
          rcases hx with rfl | hx
          · exact hb
          · exact hl x hx⟩
      · rintro ⟨ha, hl⟩
        exact ⟨⟨ha, hl b (Or.inl rfl)⟩, fun x hx => hl x (Or.inr hx)⟩

theorem foldl_max_self_or_mem (l : List Nat) :
    ∀ a : Nat, l.foldl Nat.max a = a ∨ l.foldl Nat.max a ∈ l := by
  induction l with
  | nil => intro a; exact Or.inl rfl
  | cons b l ih =>
      intro a
      rw [List.foldl_cons]
      rcases ih (Nat.max a b) with h | h
      · have hm : Nat.max a b = a ∨ Nat.max a b = b := by
          rcases Nat.le_total a b with hab | hba
          · exact Or.inr (Nat.max_eq_right hab)
          · exact Or.inl (Nat.max_eq_left hba)
        rcases hm with hm | hm
        · exact Or.inl (h.trans hm)
        · exact Or.inr (by rw [h, hm]; exact List.mem_cons_self b l)
      · exact Or.inr (List.mem_cons_of_mem b h)

theorem le_foldl_max (l : List Nat) (a : Nat) :
    a ≤ l.foldl Nat.max a ∧ ∀ x ∈ l, x ≤ l.foldl Nat.max a :=
  (foldl_max_le_iff l a (l.foldl Nat.max a)).mp (Nat.le_refl _)

/-! The duration samples of `avgDurationMin`. -/

/-- Specification-side duration sample: minutes between a parseable
start and a parseable end, kept only when the end is strictly after
the start. -/
def specDurMin (r : Reservation) : Option ℚ :=
  match parseDate r.startAt, parseDate r.endAt with
  | some s, some e => if s < e then some (((e - s : Int) : ℚ) / 60000) else none
  | _, _ => none

/-- A reservation qualifies for the average-duration sample: parseable
start and end with the end strictly after the start. -/
def specQualifies (r : Reservation) : Prop :=
  ∃ s e : Int, parseDate r.startAt = some s ∧ parseDate r.endAt = some e ∧ s < e

theorem durSample_eq_specDurMin (r : Reservation) :
    durSample r = specDurMin r := by
  unfold durSample specDurMin
  cases hs : parseDate r.startAt with
  | none => rfl
  | some s =>
      cases he : parseDate r.endAt with
      | none => rfl
      | some e =>
          simp only []
          have hval : ((e : ℚ) - (s : ℚ)) = ((e - s : Int) : ℚ) := by
            push_cast
            ring
          have hcond : (0 < ((e : ℚ) - (s : ℚ)) / 60000) ↔ s < e := by
            rw [div_pos_iff]
            constructor
            · rintro (⟨h1, _⟩ | ⟨_, h2⟩)
              · have : (s : ℚ) < e := by linarith
                exact_mod_cast this
              · norm_num at h2
            · intro h
              left
              constructor
              · have : (s : ℚ) < e := by exact_mod_cast h
                linarith
              · norm_num
          by_cases h : s < e
          · rw [if_pos (hcond.mpr h), if_pos h, hval]
          · rw [if_neg (fun hc => h (hcond.mp hc)), if_neg h]

theorem specDurMin_eq_none_iff (r : Reservation) :
    specDurMin r = none ↔ ¬specQualifies r := by
  unfold specDurMin specQualifies
  cases hs : parseDate r.startAt with
  | none => simp
  | some s =>
      cases he : parseDate r.endAt with
      | none => simp
      | some e =>
          by_cases h : s < e
          · simp [h]
          · simp [h]

/-- The status-breakdown counts always sum to the snapshot size: the
sort permutes the buckets and every reservation bumps exactly one. -/
theorem sumCounts_statusBreakdown (rs : List Reservation) :
    sumCounts (statusBreakdown rs) = rs.length := by
  have hperm := List.perm_insertionSort cmpCountDesc (statusCounts rs)
  have hsum : sumCounts (statusBreakdown rs) = sumCounts (statusCounts rs) :=
    List.Perm.sum_eq (List.Perm.map Prod.snd hperm)
  rw [hsum]
  have hfold := sumCounts_foldl_countStep (fun r => some (statusKey r)) rs []
  unfold statusCounts countBy
  rw [hfold]
  simp [sumCounts]

/-! Claims. -/

/-- C1: the average-duration metric is null iff no reservation has a
parseable start and a parseable end with the end strictly after the
start; otherwise it is the arithmetic mean, over exactly the
reservations with a parseable start and end and strictly positive
duration, of the duration in minutes. -/
theorem avgDurationMin_claim (rs : List Reservation) :
    (avgDurationMin rs = none ↔ ¬∃ r ∈ rs, specQualifies r) ∧
    (∀ v : ℚ, avgDurationMin rs = some v →
      v = (rs.filterMap specDurMin).sum /
        ((rs.filterMap specDurMin).length : ℚ)) := by
  have hfun : durSample = specDurMin := funext durSample_eq_specDurMin
  have havg : avgDurationMin rs =
      (if (rs.filterMap specDurMin).isEmpty then none
       else some ((rs.filterMap specDurMin).foldl (· + ·) 0 /
         ((rs.filterMap specDurMin).length : ℚ))) := by
    unfold avgDurationMin
    rw [hfun]
  constructor
  · rw [havg]
    by_cases hemp : (rs.filterMap specDurMin).isEmpty
    · simp only [hemp, if_true]
      constructor
      · intro _
        rw [List.isEmpty_iff, List.filterMap_eq_nil_iff] at hemp
        rintro ⟨r, hr, hq⟩
        exact (specDurMin_eq_none_iff r).mp (hemp r hr) hq
      · intro _
        trivial
    · simp only [hemp]
      constructor
      · intro h
        simp at h
      · intro hq
        exfalso
        apply hemp
        rw [List.isEmpty_iff, List.filterMap_eq_nil_iff]
        intro r hr
        rw [specDurMin_eq_none_iff r]
        exact fun hqr => hq ⟨r, hr, hqr⟩
  · intro v hv
    rw [havg] at hv
    by_cases hemp : (rs.filterMap specDurMin).isEmpty
    · rw [if_pos hemp] at hv
      cases hv
    · rw [if_neg hemp] at hv
      have := Option.some.inj hv
      rw [← this, List.sum_eq_foldl]

/-- C2: the peak-hour metric is the 24-bucket histogram of the local
start hour of each reservation with a parseable start; it is null
exactly when all 24 buckets are zero, and otherwise the index of the
first maximum bucket scanning from hour 0 upward. -/
theorem peakHour_claim (tz : Int) (rs : List Reservation) :
    (∀ h, h < 24 → (hourHist tz rs).getD h 0 = hourOcc tz rs h) ∧
    (peakHour tz rs = none ↔ ∀ h, h < 24 → hourOcc tz rs h = 0) ∧
    (∀ h, peakHour tz rs = some h →
      h < 24 ∧
      (∀ h', h' < 24 → hourOcc tz rs h' ≤ hourOcc tz rs h) ∧
      (∀ h', h' < h → hourOcc tz rs h' < hourOcc tz rs h)) := by
  have hlen : (hourHist tz rs).length = 24 := hourHist_length tz rs
  have hbucket : ∀ h, h < 24 →
      (hourHist tz rs).getD h 0 = hourOcc tz rs h := fun h hh =>
    hourHist_getD tz rs h hh
  have hgetD : ∀ h (hh : h < 24),
      (hourHist tz rs)[h] = hourOcc tz rs h := by
    intro h hh
    have := hbucket h hh
    rwa [List.getD_eq_getElem?_getD,
      List.getElem?_eq_getElem (by omega), Option.getD_some] at this
  have hpk : peakHour tz rs =
      (if (hourHist tz rs).foldl Nat.max 0 = 0 then none
       else some ((hourHist tz rs).findIdx
         (fun c => c == (hourHist tz rs).foldl Nat.max 0))) := rfl
  have hmax_ub : ∀ x ∈ hourHist tz rs, x ≤ (hourHist tz rs).foldl Nat.max 0 :=
    (le_foldl_max (hourHist tz rs) 0).2
  refine ⟨hbucket, ?_, ?_⟩
  · rw [hpk]
    by_cases hz : (hourHist tz rs).foldl Nat.max 0 = 0
    · simp only [hz, if_true]
      constructor
      · intro _ h hh
        rw [← hgetD h hh]
        have hmem : (hourHist tz rs)[h] ∈ hourHist tz rs :=
          List.getElem_mem (by omega)
        have := hmax_ub _ hmem
        omega
      · intro _
        trivial
    · simp only [hz, if_false]
      constructor
      · intro h
        cases h
      · intro hall
        exfalso
        apply hz
        rcases foldl_max_self_or_mem (hourHist tz rs) 0 with h0 | hmem
        · exact h0
        · rcases List.mem_iff_getElem.mp hmem with ⟨i, hi, hig⟩
          have : i < 24 := by omega
          rw [← hig, hgetD i this]
          exact hall i this
  · intro h hsome
    rw [hpk] at hsome
    by_cases hz : (hourHist tz rs).foldl Nat.max 0 = 0
    · rw [if_pos hz] at hsome
      cases hsome
    · rw [if_neg hz] at hsome
      have hmem : (hourHist tz rs).foldl Nat.max 0 ∈ hourHist tz rs := by
        rcases foldl_max_self_or_mem (hourHist tz rs) 0 with h0 | hmem
        · exact absurd h0 hz
        · exact hmem
      have hex : ∃ x ∈ hourHist tz rs,
          (x == (hourHist tz rs).foldl Nat.max 0) = true :=
        ⟨_, hmem, by simp⟩
      have hidx : (hourHist tz rs).findIdx
          (fun c => c == (hourHist tz rs).foldl Nat.max 0) <
            (hourHist tz rs).length :=
        List.findIdx_lt_length_of_exists hex
      have hh24 : h < 24 := by
        have := Option.some.inj hsome
        omega
      have hheq : h = (hourHist tz rs).findIdx
          (fun c => c == (hourHist tz rs).foldl Nat.max 0) :=
        (Option.some.inj hsome).symm
      have hmaxat : (hourHist tz rs)[h] =
          (hourHist tz rs).foldl Nat.max 0 := by
        have := @List.findIdx_getElem _
          (fun c => c == (hourHist tz rs).foldl Nat.max 0)
          (hourHist tz rs) hidx
        rw [beq_iff_eq] at this
        subst hheq
        exact this
      refine ⟨hh24, ?_, ?_⟩
      · intro h' hh'
        rw [← hgetD h' hh', ← hgetD h hh24, hmaxat]
        exact hmax_ub _ (List.getElem_mem (by omega))
      · intro h' hh'
        have hh'24 : h' < 24 := by omega
        have hne : ((hourHist tz rs)[h'] ==
            (hourHist tz rs).foldl Nat.max 0) = false :=
          @List.not_of_lt_findIdx _
            (fun c => c == (hourHist tz rs).foldl Nat.max 0)
            (hourHist tz rs) h' (by omega)
        rw [beq_eq_false_iff_ne] at hne
        have hle := hmax_ub ((hourHist tz rs)[h'])
          (List.getElem_mem (by omega))
        rw [← hgetD h' hh'24, ← hgetD h hh24, hmaxat]
        omega

/-- C3: top lockers groups by locker id (reservations without one are
excluded), counts occurrences, sorts descending by count with ties kept
in first-encounter order, and truncates to at most five entries. -/
theorem topLockers_claim (rs : List Reservation) :
    topLockers rs = (List.insertionSort cmpCountDesc (lockerCounts rs)).take 5 ∧
    (topLockers rs).length ≤ 5 ∧
    (∀ k, lookupD k (lockerCounts rs) = occCount lockerKey rs k) ∧
    (lockerCounts rs).map Prod.fst = encounterKeys lockerKey rs ∧
    (∀ c, (List.insertionSort cmpCountDesc (lockerCounts rs)).filter
        (fun e => e.2 == c) = (lockerCounts rs).filter (fun e => e.2 == c)) ∧
    List.Sorted cmpCountDesc (List.insertionSort cmpCountDesc (lockerCounts rs)) := by
  refine ⟨rfl, ?_, ?_, ?_, ?_, ?_⟩
  · unfold topLockers
    exact List.length_take_le 5 _
  · exact fun k => lookupD_countBy lockerKey rs k
  · exact map_fst_countBy lockerKey rs
  · exact fun c => filter_insertionSort_count c (lockerCounts rs)
  · exact List.sorted_insertionSort cmpCountDesc (lockerCounts rs)

/-- C4: the status breakdown buckets every reservation exactly once
under its status label (missing status becoming "unknown"), so the
counts sum to the total reservation count, and the output is sorted
descending by count. -/
theorem statusBreakdown_claim (rs : List Reservation) :
    sumCounts (statusBreakdown rs) = totalReservations rs ∧
    (∀ lab, lookupD lab (statusCounts rs) =
      (rs.filter (fun r => decide (statusKey r = lab))).length) ∧
    ((statusCounts rs).map Prod.fst).Nodup ∧
    List.Perm (statusBreakdown rs) (statusCounts rs) ∧
    List.Sorted cmpCountDesc (statusBreakdown rs) := by
  have hperm : List.Perm (statusBreakdown rs) (statusCounts rs) :=
    List.perm_insertionSort cmpCountDesc (statusCounts rs)
  refine ⟨?_, ?_, ?_, hperm, ?_⟩
  · rw [sumCounts_statusBreakdown]
    rfl
  · intro lab
    have := lookupD_countBy (fun r => some (statusKey r)) rs lab
    unfold statusCounts
    rw [this]
    unfold occCount
    congr 1
    apply List.filter_congr
    intro r _
    simp
  · exact nodup_map_fst_countBy _ rs
  · exact List.sorted_insertionSort cmpCountDesc (statusCounts rs)

/-- C5: the per-day series has one entry per distinct UTC creation day
of the reservations with a parseable creation time, each entry counting
the reservations created that day, sorted ascending by day. -/
theorem reservationsPerDay_claim (rs : List Reservation) :
    List.Sorted cmpDayAsc (reservationsPerDay rs) ∧
    List.Perm (reservationsPerDay rs) (dayCounts rs) ∧
    ((dayCounts rs).map Prod.fst).Nodup ∧
    (∀ d, lookupD d (dayCounts rs) = occCount createdDay rs d) ∧
    (∀ d, d ∈ (dayCounts rs).map Prod.fst ↔ ∃ r ∈ rs, createdDay r = some d) := by
  refine ⟨?_, ?_, ?_, ?_, ?_⟩
  · exact List.sorted_insertionSort cmpDayAsc (dayCounts rs)
  · exact List.perm_insertionSort cmpDayAsc (dayCounts rs)
  · exact nodup_map_fst_countBy createdDay rs
  · exact fun d => lookupD_countBy createdDay rs d
  · intro d
    unfold dayCounts
    rw [map_fst_countBy createdDay rs]
    exact mem_encounterKeys createdDay rs d

/-- C6: a reservation whose start is a typed timestamp and whose end is
an ISO string contributes the same duration sample as one whose start
and end are both typed timestamps at the same instants — in particular
the instants 2024-01-01T01:00:00Z and 2024-01-01T02:00:00Z give a
60-minute sample — so the timestamp-or-string normalization is
transparent to the average-duration metric. -/
theorem mixedEndFormat_claim (sa ea : Int) (lid : Option String)
    (ca : TsValue) (st : Option String) :
    durSample ⟨lid, ca, TsValue.timestamp sa, TsValue.isoString ea, st⟩ =
      durSample ⟨lid, ca, TsValue.timestamp sa, TsValue.timestamp ea, st⟩ ∧
    (∀ rs : List Reservation,
      avgDurationMin
          (⟨lid, ca, TsValue.timestamp sa, TsValue.isoString ea, st⟩ :: rs) =
        avgDurationMin
          (⟨lid, ca, TsValue.timestamp sa, TsValue.timestamp ea, st⟩ :: rs)) ∧
    durSample ⟨none, TsValue.missing, TsValue.timestamp 1704070800000,
      TsValue.isoString 1704074400000, none⟩ = some 60 := by
  refine ⟨rfl, fun rs => rfl, ?_⟩
  unfold durSample parseDate
  norm_num

/-- C7: create-locker writes nothing when the identifier is empty after
trimming, and otherwise writes the full document with lock state forced
to 0, reservation expiry forced to null, a server-assigned update
timestamp, and the supplied price, whatever the other form inputs. -/
theorem addLocker_claim (f : LockerForm) :
    (jsTrim f.id = "" → addLocker f = none) ∧
    (jsTrim f.id ≠ "" →
      addLocker f = some
        ⟨jsTrim f.id,
         if f.label = "" then jsTrim f.id else f.label,
         if f.location = "" then "Unknown" else f.location,
         f.doorStatus, 0, none, TimeValue.server, f.pricePerHour, f.size⟩) := by
  constructor
  · intro h
    unfold addLocker
    rw [if_pos h]
  · intro h
    unfold addLocker
    rw [if_neg h]

/-- Witness for C7 at a concrete form: with identifier "L-301",
door-status "closed" and price 5/2 the stored document has lock state 0,
null reservation expiry, the server timestamp and price 5/2. -/
theorem addLocker_claim_witness :
    addLocker ⟨"L-301", "", "", "closed", 5/2, "M"⟩ = some
      ⟨jsTrim "L-301",
       if ("" : String) = "" then jsTrim "L-301" else "",
       if ("" : String) = "" then "Unknown" else "",
       "closed", 0, none, TimeValue.server, 5/2, "M"⟩ :=
  (addLocker_claim ⟨"L-301", "", "", "closed", 5/2, "M"⟩).2 (by decide)

/-- C8: toggling flips the cached lock state — a cached 0 writes 1 and
a cached 1 writes 0 — together with a refreshed server timestamp; the
written value is always exactly 0 or 1, and toggling twice (the cache
reflecting the first write) restores the original state. -/
theorem toggleLockState_claim (l : Locker) :
    ((toggleLockState l).lockState = 0 ∨ (toggleLockState l).lockState = 1) ∧
    (toggleLockState l).lastUpdated = TimeValue.server ∧
    (l.lockState = some 0 → (toggleLockState l).lockState = 1) ∧
    (l.lockState = some 1 → (toggleLockState l).lockState = 0) ∧
    (∀ b : Nat, l.lockState = some b → b = 0 ∨ b = 1 →
      (toggleLockState
        { l with lockState := some (toggleLockState l).lockState }).lockState = b) := by
  refine ⟨?_, rfl, ?_, ?_, ?_⟩
  · unfold toggleLockState
    by_cases h : l.lockState.getD 0 = 0 <;> simp [h]
  · intro h
    unfold toggleLockState
    rw [h]
    rfl
  · intro h
    unfold toggleLockState
    rw [h]
    rfl
  · intro b hb hb01
    unfold toggleLockState
    rcases hb01 with rfl | rfl <;> simp [hb]

/-- Witness for C8: a locker cached as locked (state 0) toggles to a
written state 1, one cached as unlocked (state 1) toggles to a written
state 0, and toggling the first locker twice restores 0. -/
theorem toggleLockState_claim_witness :
    (toggleLockState
      (⟨"L-301", none, none, none, some 0, none, none, none⟩ : Locker)).lockState = 1 ∧
    (toggleLockState
      (⟨"L-301", none, none, none, some 1, none, none, none⟩ : Locker)).lockState = 0 ∧
    (toggleLockState
      { (⟨"L-301", none, none, none, some 0, none, none, none⟩ : Locker) with
        lockState := some (toggleLockState
          ⟨"L-301", none, none, none, some 0, none, none, none⟩).lockState }).lockState = 0 :=
  ⟨(toggleLockState_claim
      ⟨"L-301", none, none, none, some 0, none, none, none⟩).2.2.1 rfl,
   (toggleLockState_claim
      ⟨"L-301", none, none, none, some 1, none, none, none⟩).2.2.2.1 rfl,
   (toggleLockState_claim
      ⟨"L-301", none, none, none, some 0, none, none, none⟩).2.2.2.2 0 rfl (Or.inl rfl)⟩

/-- C10: toggling a locker whose cached lock state is absent treats it
as locked and writes lock state 1 with a refreshed server timestamp. -/
theorem toggleLockState_missing_claim (l : Locker)
    (h : l.lockState = none) :
    (toggleLockState l).lockState = 1 ∧
    (toggleLockState l).lastUpdated = TimeValue.server := by
  unfold toggleLockState
  rw [h]
  exact ⟨rfl, rfl⟩

/-- Witness for C10 at a concrete locker with no cached lock state. -/
theorem toggleLockState_missing_claim_witness :
    (toggleLockState ⟨"L-301", none, none, none, none, none, none, none⟩).lockState = 1 ∧
    (toggleLockState ⟨"L-301", none, none, none, none, none, none, none⟩).lastUpdated =
      TimeValue.server :=
  toggleLockState_missing_claim
    ⟨"L-301", none, none, none, none, none, none, none⟩ rfl

/-- C9: a record with an unparseable start and creation time and no
locker key is excluded from the duration, peak-hour, top-locker and
per-day metrics without disturbing them, while still being counted in
the total and in the status breakdown; every metric stays defined. -/
theorem malformedRecord_claim (tz : Int) (r : Reservation)
    (rs : List Reservation)
    (hstart : parseDate r.startAt = none)
    (hcreated : parseDate r.createdAt = none)
    (hlocker : lockerKey r = none) :
    totalReservations (r :: rs) = totalReservations rs + 1 ∧
    avgDurationMin (r :: rs) = avgDurationMin rs ∧
    peakHour tz (r :: rs) = peakHour tz rs ∧
    topLockers (r :: rs) = topLockers rs ∧
    reservationsPerDay (r :: rs) = reservationsPerDay rs ∧
    sumCounts (statusBreakdown (r :: rs)) = totalReservations rs + 1 := by
  have hdur : durSample r = none := by
    unfold durSample
    rw [hstart]
  have hcd : createdDay r = none := by
    unfold createdDay
    rw [hcreated]
    rfl
  have hhist : hourHist tz (r :: rs) = hourHist tz rs := by
    unfold hourHist
    rw [List.foldl_cons]
    congr 1
    simp [hourStep, hstart]
  have hlc : lockerCounts (r :: rs) = lockerCounts rs := by
    unfold lockerCounts countBy
    rw [List.foldl_cons]
    congr 1
    simp [countStep, hlocker]
  have hdc : dayCounts (r :: rs) = dayCounts rs := by
    unfold dayCounts countBy
    rw [List.foldl_cons]
    congr 1
    simp [countStep, hcd]
  refine ⟨rfl, ?_, ?_, ?_, ?_, ?_⟩
  · unfold avgDurationMin
    rw [List.filterMap_cons_none hdur]
  · unfold peakHour
    rw [hhist]
  · unfold topLockers
    rw [hlc]
  · unfold reservationsPerDay
    rw [hdc]
  · rw [sumCounts_statusBreakdown]
    rfl

/-- Witness for C9: a fully malformed record (bad creation string,
missing start, non-date end, no locker id) leaves every metric of the
empty snapshot unchanged except the total and status count. -/
theorem malformedRecord_claim_witness :
    totalReservations
        [⟨none, TsValue.badString, TsValue.missing, TsValue.other, none⟩] =
      totalReservations [] + 1 ∧
    avgDurationMin
        [⟨none, TsValue.badString, TsValue.missing, TsValue.other, none⟩] =
      avgDurationMin [] ∧
    peakHour 0
        [⟨none, TsValue.badString, TsValue.missing, TsValue.other, none⟩] =
      peakHour 0 [] ∧
    topLockers
        [⟨none, TsValue.badString, TsValue.missing, TsValue.other, none⟩] =
      topLockers [] ∧
    reservationsPerDay
        [⟨none, TsValue.badString, TsValue.missing, TsValue.other, none⟩] =
      reservationsPerDay [] ∧
    sumCounts (statusBreakdown
        [⟨none, TsValue.badString, TsValue.missing, TsValue.other, none⟩]) =
      totalReservations [] + 1 :=
  malformedRecord_claim 0
    ⟨none, TsValue.badString, TsValue.missing, TsValue.other, none⟩ [] rfl rfl rfl

/-- Evaluation of the average-duration metric on a concrete snapshot
with a single two-minute reservation. -/
theorem avgDurationMin_eval_example :
    avgDurationMin [⟨some "A", TsValue.missing, TsValue.timestamp 0,
      TsValue.timestamp 120000, none⟩] = some 2 := by
  have h1 : durSample ⟨some "A", TsValue.missing, TsValue.timestamp 0,
      TsValue.timestamp 120000, none⟩ = some 2 := by
    unfold durSample parseDate
    norm_num
  unfold avgDurationMin
  rw [List.filterMap_cons_some h1, List.filterMap_nil]
  norm_num

/-- Witness for C1: on the one-reservation snapshot above, the metric
value 2 equals the mean of the qualifying duration samples. -/
theorem avgDurationMin_claim_witness :
    (2 : ℚ) =
      (([(⟨some "A", TsValue.missing, TsValue.timestamp 0,
          TsValue.timestamp 120000, none⟩ : Reservation)].filterMap specDurMin).sum /
        ((([(⟨some "A", TsValue.missing, TsValue.timestamp 0,
          TsValue.timestamp 120000, none⟩ : Reservation)].filterMap specDurMin).length : Nat) : ℚ)) :=
  (avgDurationMin_claim [⟨some "A", TsValue.missing, TsValue.timestamp 0,
    TsValue.timestamp 120000, none⟩]).2 2 avgDurationMin_eval_example

/-- Witness for C2: a single reservation starting at 01:00 UTC in a
zone with zero offset peaks at hour 1, the maximal and first maximal
bucket. -/
theorem peakHour_claim_witness :
    1 < 24 ∧
    (∀ h', h' < 24 →
      hourOcc 0 [⟨none, TsValue.missing, TsValue.timestamp 3600000,
        TsValue.missing, none⟩] h' ≤
      hourOcc 0 [⟨none, TsValue.missing, TsValue.timestamp 3600000,
        TsValue.missing, none⟩] 1) ∧
    (∀ h', h' < 1 →
      hourOcc 0 [⟨none, TsValue.missing, TsValue.timestamp 3600000,
        TsValue.missing, none⟩] h' <
      hourOcc 0 [⟨none, TsValue.missing, TsValue.timestamp 3600000,
        TsValue.missing, none⟩] 1) :=
  (peakHour_claim 0 [⟨none, TsValue.missing, TsValue.timestamp 3600000,
    TsValue.missing, none⟩]).2.2 1 (by decide)

end SmartLocker
